import Mathlib

/-!
Verification of the feast feature-store client stack (python SDK) against its
natural-language specification.

Each definition below is a shallow embedding of a concrete piece of the
repository's source; the file/line of the embedded code is named in the doc
comment.  Components whose implementation lives outside the provided sources
(only their callers or tests are present) are modelled from the spec and say
so in their doc comments.
-/

namespace Feast

/-! ## Python string helpers

Embedding of the Python builtins used by `_build_feature_references`
(`src/sdk/python/feast/client.py`, lines 675-726).  Python strings are
embedded as `List Char`. -/

/-- Embeds Python `s.split(sep)` for a one-character separator `sep`
(no maxsplit), as used at client.py lines 692 and 709.  Like Python,
splitting the empty string yields `[[]]` and adjacent separators yield
empty components. -/
def pySplit (sep : Char) : List Char → List (List Char)
  | [] => [[]]
  | c :: rest =>
    let r := pySplit sep rest
    if c = sep then [] :: r
    else
      match r with
      | h :: t => (c :: h) :: t
      | [] => [[c]]

/-- Digit-string to number: the core of Python `int(s)` on a string of
decimal digits.  Returns `none` when `s` is empty or contains a
non-digit. -/
def digitsToNat (s : List Char) : Option Nat :=
  if s = [] then none
  else if s.all (fun c => c.isDigit) then
    some (s.foldl (fun acc c => acc * 10 + (c.toNat - 48)) 0)
  else none

/-- Embeds Python `int(s)` as used at client.py line 712 (restricted to
plain decimal literals with an optional sign; surrounding whitespace and
underscore digit grouping, which Python also accepts, are not modelled —
no value exercised by the spec uses them). -/
def pyInt (s : List Char) : Option Int :=
  match s with
  | [] => none
  | c :: rest =>
    if c = '-' then (digitsToNat rest).map (fun n => -(n : Int))
    else if c = '+' then (digitsToNat rest).map (fun n => (n : Int))
    else (digitsToNat (c :: rest)).map (fun n => (n : Int))

/-! ## Feature-reference parsing (client.py `_build_feature_references`) -/

/-- A parsed feature reference, as constructed at client.py line 725:
`FeatureReference(project=project, name=name, version=version)`. -/
structure FeatureRef where
  project : List Char
  name : List Char
  version : Int
  deriving DecidableEq, Repr

/-- The two failure modes of `_build_feature_references`.  The code raises
`ValueError` in both cases; the spec's taxonomy distinguishes the
missing-default-namespace message (client.py line 700) from the malformed
messages (lines 705, 716, 721, and the `ValueError` raised by `int()` on a
non-numeric version at line 712). -/
inductive RefErr where
  | missingNamespace
  | malformed
  deriving DecidableEq, Repr

/-- The final validation of `_build_feature_references`, client.py lines
720-723: reject an empty project, an empty name, or a negative version. -/
def finalCheck (project name : List Char) (version : Int) : Except RefErr FeatureRef :=
  if project.length = 0 ∨ name.length = 0 ∨ version < 0 then .error .malformed
  else .ok ⟨project, name, version⟩

/-- The `feature_version.split(":")` part of `_build_feature_references`,
client.py lines 709-723: 0 or 1 occurrence of `:`; with none the version
defaults to 0, otherwise the version string goes through `int()` (whose
`ValueError` on a non-numeric string the spec files under malformed). -/
def parseFeatureVersion (project featureVersion : List Char) : Except RefErr FeatureRef :=
  match pySplit ':' featureVersion with
  | [name, versionStr] =>
    match pyInt versionStr with
    | none => .error .malformed
    | some version => finalCheck project name version
  | [name] => finalCheck project name 0
  | _ => .error .malformed

/-- Embeds the per-reference body of `_build_feature_references`
(client.py lines 691-725): split on `/` (0 or 1 occurrence, otherwise
error; if absent a default project is required), then parse the
name/version remainder. -/
def buildFeatureReference (ref : List Char) (defaultProject : Option (List Char)) :
    Except RefErr FeatureRef :=
  match pySplit '/' ref with
  | [project, featureVersion] => parseFeatureVersion project featureVersion
  | [featureVersion] =>
    match defaultProject with
    | none => .error .missingNamespace
    | some project => parseFeatureVersion project featureVersion
  | _ => .error .malformed

/-- Embeds the whole of `_build_feature_references` (client.py lines
675-726): the loop appends parsed references in input order and any raise
aborts the whole batch. -/
def buildFeatureReferences (refs : List (List Char)) (defaultProject : Option (List Char)) :
    Except RefErr (List FeatureRef) :=
  refs.mapM (fun r => buildFeatureReference r defaultProject)

/-- Decimal digit character (the catch-all mirrors `d ≤ 9` usage). -/
def digitChar (d : Nat) : Char :=
  match d with
  | 0 => '0'
  | 1 => '1'
  | 2 => '2'
  | 3 => '3'
  | 4 => '4'
  | 5 => '5'
  | 6 => '6'
  | 7 => '7'
  | 8 => '8'
  | _ => '9'

/-- Decimal representation of a natural number, used to state the
well-formed version component of a reference string. -/
def natToDigits (n : Nat) : List Char :=
  if n < 10 then [digitChar n]
  else natToDigits (n / 10) ++ [digitChar (n % 10)]
termination_by n
decreasing_by exact Nat.div_lt_self (by omega) (by omega)

/-- The namespace and feature-path components of a reference string under
the grammar `[namespace "/"] feature_path`, with the default namespace
substituted when no `/` is present; `none` when there is more than one
`/`, or when the namespace is absent and no default is supplied. -/
def refComponents (s : List Char) (d : Option (List Char)) :
    Option (List Char × List Char) :=
  match pySplit '/' s with
  | [fp] => d.map (fun p => (p, fp))
  | [ns, fp] => some (ns, fp)
  | _ => none

/-- The name component of a feature path: the part before the first `:`. -/
def nameComponent (fp : List Char) : List Char :=
  match pySplit ':' fp with
  | n :: _ => n
  | [] => []

/-- Whether a feature path carries a version component that is negative or
non-numeric. -/
def badVersion (fp : List Char) : Prop :=
  match pySplit ':' fp with
  | [_, vs] =>
    match pyInt vs with
    | none => True
    | some k => k < 0
  | _ => False

/-- The amended malformedness condition for reference parsing: more than
one `/` in the string; or, once the namespace and feature-path components
exist, more than one `:` in the feature-path component, an empty
namespace component, an empty name component, or a negative or
non-numeric version. -/
def malformedCond (s : List Char) (d : Option (List Char)) : Prop :=
  1 < s.count '/' ∨
  ∃ ns fp, refComponents s d = some (ns, fp) ∧
    (1 < fp.count ':' ∨ ns = [] ∨ nameComponent fp = [] ∨ badVersion fp)

/-! ## Pull-latest query (offline_store.py `BigQueryOfflineStore.pull_table`)

`pull_table` (offline_store.py lines 45-77) emits the SQL

```
SELECT <fields> FROM (
  SELECT <fields>,
  ROW_NUMBER() OVER(PARTITION BY <entities> ORDER BY <event> DESC[, <created> DESC]) AS _feast_row
  FROM <table>
  WHERE <event> BETWEEN TIMESTAMP(<start>) AND TIMESTAMP(<end>)
) WHERE _feast_row = 1
```

and hands it to BigQuery.  The definitions below embed that query's
relational semantics over a list of source rows: SQL `BETWEEN` keeps the
rows with `start <= event AND event <= end` (inclusive at BOTH ends), and
the `ROW_NUMBER ... = 1` filter keeps, per distinct entity-key value, one
row maximal for the `ORDER BY` (event descending, then creation descending
when a creation-timestamp column is configured; ties beyond that are
engine-chosen — the embedding picks deterministically). -/

/-- A source row as seen by the emitted query: its entity-key column
values (abstract key type `K`), its event timestamp and its creation
timestamp. -/
structure SourceRow (K : Type) where
  key : K
  eventTs : Int
  createdTs : Int
  deriving DecidableEq, Repr

/-- The `WHERE ... BETWEEN` clause of the emitted query (offline_store.py
line 73): SQL `BETWEEN` is inclusive at both endpoints. -/
def inWindow (startDate endDate : Int) (r : SourceRow K) : Bool :=
  decide (startDate ≤ r.eventTs) && decide (r.eventTs ≤ endDate)

/-- The `ORDER BY` sort key of the emitted query (offline_store.py lines
60-64): event timestamp first, then the creation timestamp only when a
creation-timestamp column is configured. -/
def orderKey (hasCreated : Bool) (r : SourceRow K) : Int × Int :=
  (r.eventTs, if hasCreated then r.createdTs else 0)

/-- Strict lexicographic order on `(event, created)` sort keys. -/
def pairLt (a b : Int × Int) : Prop :=
  a.1 < b.1 ∨ (a.1 = b.1 ∧ a.2 < b.2)

instance (a b : Int × Int) : Decidable (pairLt a b) := by
  unfold pairLt; infer_instance

/-- Non-strict lexicographic order on `(event, created)` sort keys. -/
def pairLe (a b : Int × Int) : Prop :=
  a.1 < b.1 ∨ (a.1 = b.1 ∧ a.2 ≤ b.2)

/-- The `ROW_NUMBER() ... = 1` filter applied to one partition: the row
maximal for the `ORDER BY ... DESC` key.  Among order-key ties the
engine's choice is unspecified but deterministic; the embedding keeps the
earliest such row. -/
def selectLatest (hasCreated : Bool) (h : SourceRow K) (t : List (SourceRow K)) :
    SourceRow K :=
  t.foldl (fun best r =>
    if pairLt (orderKey hasCreated best) (orderKey hasCreated r) then r else best) h

/-- Embeds the result set of the query emitted by
`BigQueryOfflineStore.pull_table` (offline_store.py lines 67-76): filter
the source rows with the inclusive `BETWEEN` window, then keep one maximal
row per distinct entity-key value. -/
def pullTable [DecidableEq K] (rows : List (SourceRow K)) (hasCreated : Bool)
    (startDate endDate : Int) : List (SourceRow K) :=
  let inR := rows.filter (inWindow startDate endDate)
  let keys := (inR.map (·.key)).dedup
  keys.filterMap (fun k =>
    match inR.filter (fun r => r.key = k) with
    | [] => none
    | h :: t => some (selectLatest hasCreated h t))

/-! ## Retrieval job handles (pyspark/launchers.py, pyspark/launchers/gcloud/dataproc.py) -/

/-- The observable state of the subprocess backing a
`StandaloneClusterRetrievalJob` (launchers.py lines 55-92): whether
`p.wait(timeout_sec)` returns within the timeout, the return code it
exits with when it does, and whether the process has been killed. -/
structure SubprocessState where
  exitsWithinTimeout : Bool
  returncode : Int
  killed : Bool
  deriving DecidableEq, Repr

/-- A `StandaloneClusterRetrievalJob` (launchers.py lines 60-74): job id,
driver subprocess, and the output-file uri the job was submitted with. -/
structure StandaloneJob where
  jobId : List Char
  process : SubprocessState
  outputFileUri : List Char
  deriving DecidableEq, Repr

/-- The exception raised by both retrieval-job classes. -/
inductive SparkJobFailure where
  | timeout
  | nonZeroReturnCode (rc : Int)
  | wrapped
  deriving DecidableEq, Repr

/-- Embeds `StandaloneClusterRetrievalJob.get_output_file_uri`
(launchers.py lines 79-92), returning the call's outcome together with the
subprocess state it leaves behind.  On a timed-out `p.wait` the code calls
`p.kill()` and then raises; on a non-zero return code it raises; on a zero
return code it falls off the end of the function, i.e. returns Python
`None` — it never returns `self._output_file_uri`. -/
def standaloneGetOutputFileUri (job : StandaloneJob) :
    Except SparkJobFailure (Option (List Char)) × SubprocessState :=
  if ¬job.process.exitsWithinTimeout then
    (.error .timeout, { job.process with killed := true })
  else if job.process.returncode ≠ 0 then
    (.error (.nonZeroReturnCode job.process.returncode), job.process)
  else
    (.ok none, job.process)

/-- The observable state of the operation future backing a
`DataprocRetrievalJob`: whether `operation.result(timeout_sec)` returns
within the timeout, and whether it raises (job failure). -/
structure OperationState where
  resultWithinTimeout : Bool
  failed : Bool
  deriving DecidableEq, Repr

/-- A `DataprocRetrievalJob` (launchers.py lines 100-114 and
launchers/gcloud/dataproc.py lines 51-59): operation future plus the
output-file uri it was submitted with. -/
structure DataprocJob where
  operation : OperationState
  outputFileUri : List Char
  deriving DecidableEq, Repr

/-- Embeds `DataprocRetrievalJob.get_output_file_uri` (identical at
launchers.py lines 119-124 and launchers/gcloud/dataproc.py lines 61-66):
any exception from `operation.result(timeout_sec)` is re-raised wrapped in
`SparkJobFailure`, without touching the operation; on success the stored
output-file uri is returned. -/
def dataprocGetOutputFileUri (job : DataprocJob) :
    Except SparkJobFailure (Option (List Char)) × OperationState :=
  if ¬job.operation.resultWithinTimeout ∨ job.operation.failed then
    (.error .wrapped, job.operation)
  else
    (.ok (some job.outputFileUri), job.operation)

/-! ## Legacy Feature resource datastore setters (sdk/resources/feature.py) -/

/-- The `dataStores` message held inside a legacy `FeatureSpec`
(feature.py line 73): a warehouse slot and a serving slot.  The datastore
payload is abstract (`D`). -/
structure DataStoresState (D : Type) where
  warehouse : D
  serving : D
  deriving DecidableEq, Repr

/-- Getter `Feature.warehouse_store` (feature.py lines 129-131). -/
def warehouseStoreGet (spec : DataStoresState D) : D :=
  spec.warehouse

/-- Getter `Feature.serving_store` (feature.py lines 137-139). -/
def servingStoreGet (spec : DataStoresState D) : D :=
  spec.serving

/-- Setter `Feature.warehouse_store` (feature.py lines 133-135): the body
is `self.__spec.dataStores.serving.CopyFrom(value)` — it writes the
SERVING slot. -/
def warehouseStoreSet (spec : DataStoresState D) (value : D) : DataStoresState D :=
  { spec with serving := value }

/-- Setter `Feature.serving_store` (feature.py lines 141-143): the body
is `self.__spec.dataStores.warehouse.CopyFrom(value)` — it writes the
WAREHOUSE slot. -/
def servingStoreSet (spec : DataStoresState D) (value : D) : DataStoresState D :=
  { spec with warehouse := value }

/-! ## Conflict-resolving online writer

`GcpProvider.online_write_batch` (infra/gcp.py lines 111-120) delegates to
`self.online_store.online_write_batch`; the online-store implementation
holding the conflict-resolution rule is not among the provided sources —
only its caller and its provider-independent test
(`tests/cli/online_read_write_test.py`, `basic_rw_test`) are.  The writer
is therefore modelled from the spec. -/

/-- A stored online record for one entity key: event timestamp, creation
timestamp and the feature-value map written with them (payload abstract). -/
structure StoredRecord (V : Type) where
  eventTs : Int
  createdTs : Int
  value : V
  deriving DecidableEq, Repr

/-- Association-list online store: one `StoredRecord` per entity key. -/
abbrev OnlineStore (K V : Type) := List (K × StoredRecord V)

/-- Lookup of the record stored for a key. -/
def lookupKey [DecidableEq K] (store : OnlineStore K V) (k : K) : Option (StoredRecord V) :=
  match store with
  | [] => none
  | (k', r) :: rest => if k' = k then some r else lookupKey rest k

/-- Modelled from the spec: the §4.4 ConflictResolvingWriter per-row rule
(the online-store `online_write_batch` implementation is absent from the
provided sources).  For an incoming row `(k, v, event_ts, created_ts)`:
absent stored record → write; incoming `event_ts` greater → overwrite;
equal `event_ts` and incoming `created_ts` greater → overwrite; otherwise
discard silently, leaving the store unchanged. -/
def writeRow [DecidableEq K] (store : OnlineStore K V) (row : K × V × Int × Int) :
    OnlineStore K V :=
  let (k, v, e, c) := row
  match lookupKey store k with
  | none => store ++ [(k, ⟨e, c, v⟩)]
  | some stored =>
    if e > stored.eventTs ∨ (e = stored.eventTs ∧ c > stored.createdTs) then
      store.map (fun p => if p.1 = k then (p.1, ⟨e, c, v⟩) else p)
    else store

/-- Modelled from the spec: `online_write_batch` applies the §4.4 rule to
each incoming row in order. -/
def onlineWriteBatch [DecidableEq K] (store : OnlineStore K V)
    (rows : List (K × V × Int × Int)) : OnlineStore K V :=
  rows.foldl writeRow store

/-- `online_read` for one key (infra/gcp.py lines 122-131 delegate to the
online store): the stored feature-value map, if any. -/
def onlineRead [DecidableEq K] (store : OnlineStore K V) (k : K) : Option V :=
  (lookupKey store k).map (·.value)

/-! ## Materialization write batching

`GcpProvider.__init__` (infra/gcp.py lines 42-51) reads
`write_concurrency` and `write_batch_size` from the online-store config,
and `materialize_single_feature_view` (lines 133-172) hands all pulled
rows to `online_write_batch`.  The batching itself (splitting into
minibatches of `write_batch_size` and mapping them over a thread pool of
`write_concurrency` workers) happens inside the online-store
implementation, which is absent from the provided sources; it is modelled
from the spec. -/

/-- Modelled from the spec: §4.5/§5 partitioning of the pulled rows into
consecutive batches of at most `n` rows (the writer's minibatching). -/
def toBatches (n : Nat) : List α → List (List α)
  | [] => []
  | x :: xs => (x :: xs.take (n - 1)) :: toBatches n (xs.drop (n - 1))
termination_by l => l.length
decreasing_by
  simp only [List.length_cons]
  have := List.length_drop (n - 1) xs
  omega

/-- Modelled from the spec: a bounded worker pool of size `wc` processes
the batches in successive waves of at most `wc` concurrently-submitted
batches. -/
def toWaves (wc : Nat) (batches : List (List α)) : List (List (List α)) :=
  toBatches wc batches

/-! ## EntityKeyCodec

`infra/gcp.py` imports `serialize_entity_key` from
`feast.infra.key_encoding_utils`, which is absent from the provided
sources; the codec is modelled from spec §4.1: each value is encoded as
`[type-tag:1 byte][length-prefix if variable][payload]`, fixed-width
numeric types use a fixed byte width in a single consistent endianness
(little-endian here), and the key is the ordered names followed by the
ordered values.  Bytes are embedded as `Nat` (the encoder only emits
values below 256); variable lengths use a base-128 varint so every length
is representable; float payloads are carried as their IEEE bit patterns,
which is faithful for a byte-level codec that never computes on them. -/

/-- Modelled from the spec: base-128 little-endian varint encoding of a
length prefix (low 7 bits first, high bit set on non-final bytes). -/
def encodeNat (n : Nat) : List Nat :=
  if h : n < 128 then [n]
  else (128 + n % 128) :: encodeNat (n / 128)
termination_by n
decreasing_by
  exact Nat.div_lt_self (by omega) (by omega)

/-- Modelled from the spec: varint decoding; returns the value and the
unread remainder of the byte stream. -/
def decodeNat : List Nat → Option (Nat × List Nat)
  | [] => none
  | b :: rest =>
    if b < 128 then some (b, rest)
    else
      match decodeNat rest with
      | some (m, r) => some ((b - 128) + 128 * m, r)
      | none => none

/-- Modelled from the spec: fixed-width little-endian encoding of a
numeric payload into `w` bytes. -/
def natToLE : Nat → Nat → List Nat
  | 0, _ => []
  | w + 1, n => n % 256 :: natToLE w (n / 256)

/-- Modelled from the spec: read `w` little-endian bytes back into a
number, returning the unread remainder. -/
def takeLE : Nat → List Nat → Option (Nat × List Nat)
  | 0, l => some (0, l)
  | _ + 1, [] => none
  | w + 1, b :: rest =>
    match takeLE w rest with
    | some (m, r) => some (b + 256 * m, r)
    | none => none

/-- Modelled from the spec: the TypedValue tagged union over the supported
scalar tags {int32, int64, float32, float64, string, bytes, bool} and the
list variant of each.  Fixed-width numeric payloads are the value's byte
image (`Fin (2^32)` / `Fin (2^64)`); string and bytes payloads are raw
byte sequences. -/
inductive TypedValue where
  | i32 (v : Fin (2 ^ 32))
  | i64 (v : Fin (2 ^ 64))
  | f32 (bits : Fin (2 ^ 32))
  | f64 (bits : Fin (2 ^ 64))
  | str (cs : List Nat)
  | bytes (bs : List Nat)
  | boolean (b : Bool)
  | i32List (vs : List (Fin (2 ^ 32)))
  | i64List (vs : List (Fin (2 ^ 64)))
  | f32List (vs : List (Fin (2 ^ 32)))
  | f64List (vs : List (Fin (2 ^ 64)))
  | strList (vs : List (List Nat))
  | bytesList (vs : List (List Nat))
  | booleanList (vs : List Bool)
  deriving DecidableEq, Repr

/-- Length-prefixed byte-sequence encoding (strings, bytes, names). -/
def encodeBytes (cs : List Nat) : List Nat :=
  encodeNat cs.length ++ cs

/-- Inverse of `encodeBytes`. -/
def decodeBytes (l : List Nat) : Option (List Nat × List Nat) :=
  match decodeNat l with
  | some (len, r) =>
    if len ≤ r.length then some (r.take len, r.drop len) else none
  | none => none

/-- Modelled from the spec: one value's binary form,
`[type-tag:1 byte][length-prefix if variable][payload]`. -/
def encodeValue : TypedValue → List Nat
  | .i32 v => 0 :: natToLE 4 v.val
  | .i64 v => 1 :: natToLE 8 v.val
  | .f32 v => 2 :: natToLE 4 v.val
  | .f64 v => 3 :: natToLE 8 v.val
  | .str cs => 4 :: encodeBytes cs
  | .bytes bs => 5 :: encodeBytes bs
  | .boolean b => 6 :: [if b then 1 else 0]
  | .i32List vs => 7 :: encodeNat vs.length ++ (vs.map (fun v => natToLE 4 v.val)).flatten
  | .i64List vs => 8 :: encodeNat vs.length ++ (vs.map (fun v => natToLE 8 v.val)).flatten
  | .f32List vs => 9 :: encodeNat vs.length ++ (vs.map (fun v => natToLE 4 v.val)).flatten
  | .f64List vs => 10 :: encodeNat vs.length ++ (vs.map (fun v => natToLE 8 v.val)).flatten
  | .strList vs => 11 :: encodeNat vs.length ++ (vs.map encodeBytes).flatten
  | .bytesList vs => 12 :: encodeNat vs.length ++ (vs.map encodeBytes).flatten
  | .booleanList vs =>
    13 :: encodeNat vs.length ++ (vs.map (fun b => [if b then 1 else 0])).flatten

/-- Decode a 4-byte little-endian payload into a `Fin (2^32)`. -/
def decodeF32 (l : List Nat) : Option (Fin (2 ^ 32) × List Nat) :=
  match takeLE 4 l with
  | some (n, r) => some (⟨n % 2 ^ 32, Nat.mod_lt _ (by norm_num)⟩, r)
  | none => none

/-- Decode an 8-byte little-endian payload into a `Fin (2^64)`. -/
def decodeF64 (l : List Nat) : Option (Fin (2 ^ 64) × List Nat) :=
  match takeLE 8 l with
  | some (n, r) => some (⟨n % 2 ^ 64, Nat.mod_lt _ (by norm_num)⟩, r)
  | none => none

/-- Decode a 1-byte boolean payload. -/
def decodeBool (l : List Nat) : Option (Bool × List Nat) :=
  match l with
  | [] => none
  | b :: rest => some (if b = 1 then true else false, rest)

/-- Decode `k` consecutive occurrences of an element encoding. -/
def decodeCount (dec : List Nat → Option (α × List Nat)) :
    Nat → List Nat → Option (List α × List Nat)
  | 0, l => some ([], l)
  | k + 1, l =>
    match dec l with
    | some (a, r) =>
      match decodeCount dec k r with
      | some (as, r') => some (a :: as, r')
      | none => none
    | none => none

/-- Modelled from the spec: inverse of `encodeValue` — dispatch on the
type tag, then read the fixed-width or length-prefixed payload. -/
def decodeValue (l : List Nat) : Option (TypedValue × List Nat) :=
  match l with
  | [] => none
  | tag :: rest =>
    if tag = 0 then (decodeF32 rest).map (fun (v, r) => (.i32 v, r))
    else if tag = 1 then (decodeF64 rest).map (fun (v, r) => (.i64 v, r))
    else if tag = 2 then (decodeF32 rest).map (fun (v, r) => (.f32 v, r))
    else if tag = 3 then (decodeF64 rest).map (fun (v, r) => (.f64 v, r))
    else if tag = 4 then (decodeBytes rest).map (fun (v, r) => (.str v, r))
    else if tag = 5 then (decodeBytes rest).map (fun (v, r) => (.bytes v, r))
    else if tag = 6 then (decodeBool rest).map (fun (v, r) => (.boolean v, r))
    else if tag = 7 then
      (decodeNat rest).bind (fun (k, r) =>
        (decodeCount decodeF32 k r).map (fun (vs, r') => (.i32List vs, r')))
    else if tag = 8 then
      (decodeNat rest).bind (fun (k, r) =>
        (decodeCount decodeF64 k r).map (fun (vs, r') => (.i64List vs, r')))
    else if tag = 9 then
      (decodeNat rest).bind (fun (k, r) =>
        (decodeCount decodeF32 k r).map (fun (vs, r') => (.f32List vs, r')))
    else if tag = 10 then
      (decodeNat rest).bind (fun (k, r) =>
        (decodeCount decodeF64 k r).map (fun (vs, r') => (.f64List vs, r')))
    else if tag = 11 then
      (decodeNat rest).bind (fun (k, r) =>
        (decodeCount decodeBytes k r).map (fun (vs, r') => (.strList vs, r')))
    else if tag = 12 then
      (decodeNat rest).bind (fun (k, r) =>
        (decodeCount decodeBytes k r).map (fun (vs, r') => (.bytesList vs, r')))
    else if tag = 13 then
      (decodeNat rest).bind (fun (k, r) =>
        (decodeCount decodeBool k r).map (fun (vs, r') => (.booleanList vs, r')))
    else none

/-- Modelled from the spec: `encode(names, values)` — the pair count, then
the ordered length-prefixed join-key names, then the ordered encoded
values. -/
def encodeEntityKey (names : List (List Nat)) (values : List TypedValue) : List Nat :=
  encodeNat names.length ++ (names.map encodeBytes).flatten ++
    (values.map encodeValue).flatten

/-- Modelled from the spec: `decode(bytes) -> (names, values)`. -/
def decodeEntityKey (l : List Nat) : Option (List (List Nat) × List TypedValue) :=
  (decodeNat l).bind (fun (k, r) =>
    (decodeCount decodeBytes k r).bind (fun (names, r') =>
      (decodeCount decodeValue k r').bind (fun (values, r'') =>
        if r'' = [] then some (names, values) else none)))

/-! ## Order lemmas for the pull-latest selection -/

theorem pairLe_refl (a : Int × Int) : pairLe a a := by
  unfold pairLe; omega

theorem pairLe_trans {a b c : Int × Int} (h1 : pairLe a b) (h2 : pairLe b c) :
    pairLe a c := by
  unfold pairLe at *; omega

theorem pairLt_le {a b : Int × Int} (h : pairLt a b) : pairLe a b := by
  unfold pairLt at h; unfold pairLe; omega

theorem not_pairLt_le {a b : Int × Int} (h : ¬pairLt a b) : pairLe b a := by
  unfold pairLt at h; unfold pairLe; omega

/-- The fold underlying `selectLatest` returns its seed or a list element. -/
theorem selectLatest_foldl_mem (hc : Bool) :
    ∀ (t : List (SourceRow K)) (b : SourceRow K),
      (t.foldl (fun best r =>
        if pairLt (orderKey hc best) (orderKey hc r) then r else best) b) = b ∨
      (t.foldl (fun best r =>
        if pairLt (orderKey hc best) (orderKey hc r) then r else best) b) ∈ t := by
  intro t
  induction t with
  | nil => intro b; exact .inl rfl
  | cons x t ih =>
    intro b
    simp only [List.foldl_cons]
    rcases ih (if pairLt (orderKey hc b) (orderKey hc x) then x else b) with h | h
    · rw [h]
      split
      · exact .inr (List.mem_cons_self _ _)
      · exact .inl rfl
    · exact .inr (List.mem_cons_of_mem _ h)

theorem selectLatest_mem (hc : Bool) (h : SourceRow K) (t : List (SourceRow K)) :
    selectLatest hc h t ∈ h :: t := by
  unfold selectLatest
  rcases selectLatest_foldl_mem hc t h with h' | h'
  · rw [h']; exact List.mem_cons_self _ _
  · exact List.mem_cons_of_mem _ h'

/-- The fold underlying `selectLatest` dominates its seed and every list
element in the lexicographic `ORDER BY` key. -/
theorem selectLatest_foldl_ge (hc : Bool) :
    ∀ (t : List (SourceRow K)) (b : SourceRow K),
      pairLe (orderKey hc b)
        (orderKey hc (t.foldl (fun best r =>
          if pairLt (orderKey hc best) (orderKey hc r) then r else best) b)) ∧
      ∀ x ∈ t, pairLe (orderKey hc x)
        (orderKey hc (t.foldl (fun best r =>
          if pairLt (orderKey hc best) (orderKey hc r) then r else best) b)) := by
  intro t
  induction t with
  | nil =>
    intro b
    exact ⟨pairLe_refl _, by intro x hx; cases hx⟩
  | cons x t ih =>
    intro b
    simp only [List.foldl_cons]
    have hb : pairLe (orderKey hc b)
        (orderKey hc (if pairLt (orderKey hc b) (orderKey hc x) then x else b)) := by
      split
      · exact pairLt_le (by assumption)
      · exact pairLe_refl _
    have hx : pairLe (orderKey hc x)
        (orderKey hc (if pairLt (orderKey hc b) (orderKey hc x) then x else b)) := by
      split
      · exact pairLe_refl _
      · exact not_pairLt_le (by assumption)
    refine ⟨pairLe_trans hb (ih _).1, ?_⟩
    intro y hy
    rcases List.mem_cons.mp hy with rfl | hy
    · exact pairLe_trans hx (ih _).1
    · exact (ih _).2 y hy

theorem selectLatest_ge (hc : Bool) (h : SourceRow K) (t : List (SourceRow K)) :
    ∀ x ∈ h :: t, pairLe (orderKey hc x) (orderKey hc (selectLatest hc h t)) := by
  intro x hx
  rcases List.mem_cons.mp hx with rfl | hx
  · exact (selectLatest_foldl_ge hc t x).1
  · exact (selectLatest_foldl_ge hc t h).2 x hx

/-- Elements produced by a key-indexed `filterMap` carry their index key,
so a nodup key list yields at most one result row per key. -/
theorem filterMap_key_count [DecidableEq K] (keyOf : α → K) (f : K → Option α)
    (hf : ∀ k r, f k = some r → keyOf r = k) :
    ∀ (keys : List K), keys.Nodup → ∀ k,
      ((keys.filterMap f).filter (fun r => keyOf r = k)).length ≤ 1 := by
  intro keys
  induction keys with
  | nil => intro _ k; simp
  | cons k0 ks ih =>
    intro hnd k
    have hk0 : k0 ∉ ks := (List.nodup_cons.mp hnd).1
    have hnd' : ks.Nodup := (List.nodup_cons.mp hnd).2
    rcases hf0 : f k0 with _ | r
    · simpa [List.filterMap_cons, hf0] using ih hnd' k
    · simp only [List.filterMap_cons, hf0]
      by_cases hkey : keyOf r = k
      · have hzero : ((ks.filterMap f).filter (fun r => keyOf r = k)).length = 0 := by
          rw [List.length_eq_zero]
          rw [List.filter_eq_nil_iff]
          intro y hy
          rcases List.mem_filterMap.mp hy with ⟨k', hk', hfk'⟩
          have hyk : keyOf y = k' := hf k' y hfk'
          simp only [decide_eq_true_eq]
          intro hcontra
          apply hk0
          have : k0 = k' := by rw [← hf k0 r hf0, hkey, ← hcontra, hyk]
          rw [this]
          exact hk'
        simp [List.filter_cons, hkey, hzero]
      · simpa [List.filter_cons, hkey] using ih hnd' k

/-- Every result row of `pullTable` is one of the in-window source rows
and dominates every in-window source row sharing its entity key in the
lexicographic `ORDER BY` key. -/
theorem pullTable_spec [DecidableEq K] (rows : List (SourceRow K)) (hc : Bool)
    (s e : Int) :
    ∀ r ∈ pullTable rows hc s e,
      r ∈ rows.filter (inWindow s e) ∧
      ∀ x ∈ rows.filter (inWindow s e), x.key = r.key →
        pairLe (orderKey hc x) (orderKey hc r) := by
  intro r hr
  simp only [pullTable] at hr
  rcases List.mem_filterMap.mp hr with ⟨k, _, heq⟩
  rcases hfil : (rows.filter (inWindow s e)).filter (fun x => x.key = k) with _ | ⟨h, t⟩
  · rw [hfil] at heq; cases heq
  · rw [hfil] at heq
    have hrsel : r = selectLatest hc h t := (Option.some.injEq _ _).mp heq |>.symm
    have hmem : r ∈ (rows.filter (inWindow s e)).filter (fun x => x.key = k) := by
      rw [hfil, hrsel]; exact selectLatest_mem hc h t
    have hin : r ∈ rows.filter (inWindow s e) := (List.mem_filter.mp hmem).1
    have hkey : r.key = k := by
      have := (List.mem_filter.mp hmem).2
      simpa using this
    refine ⟨hin, ?_⟩
    intro x hx hxk
    have hxmem : x ∈ (rows.filter (inWindow s e)).filter (fun y => y.key = k) := by
      refine List.mem_filter.mpr ⟨hx, ?_⟩
      simp [hxk, hkey]
    rw [hfil] at hxmem
    rw [hrsel]
    exact selectLatest_ge hc h t x hxmem

/-- C2 (confirmed): the pull-latest query's result set has at most one
row per distinct entity key value, and each result row is one of the
in-range rows and carries the lexicographically maximum (event timestamp,
creation timestamp) pair among the in-range rows for its key — the event
timestamp compared first, and the creation timestamp used only as a
tie-break and only when a creation-timestamp column is configured. -/
theorem c2_pull_latest_dedup {K : Type} [DecidableEq K]
    (rows : List (SourceRow K)) (hasCreated : Bool) (startDate endDate : Int) :
    (∀ k : K, ((pullTable rows hasCreated startDate endDate).filter
        (fun r => r.key = k)).length ≤ 1) ∧
    (∀ r ∈ pullTable rows hasCreated startDate endDate,
      r ∈ rows.filter (inWindow startDate endDate) ∧
      ∀ x ∈ rows.filter (inWindow startDate endDate), x.key = r.key →
        x.eventTs ≤ r.eventTs ∧
        (hasCreated = true →
          pairLe (x.eventTs, x.createdTs) (r.eventTs, r.createdTs))) := by
  constructor
  · intro k
    simp only [pullTable]
    refine filterMap_key_count (fun r => r.key)
      (fun k =>
        match (rows.filter (inWindow startDate endDate)).filter
            (fun r => r.key = k) with
        | [] => none
        | h :: t => some (selectLatest hasCreated h t)) ?_
      ((rows.filter (inWindow startDate endDate)).map (fun x => x.key)).dedup
      (List.nodup_dedup _) k
    · intro k' r hr
      simp only [] at hr
      rcases hfil : (rows.filter (inWindow startDate endDate)).filter
          (fun x => x.key = k') with _ | ⟨h, t⟩
      · rw [hfil] at hr; cases hr
      · rw [hfil] at hr
        have hrsel : r = selectLatest hasCreated h t :=
          (Option.some.injEq _ _).mp hr |>.symm
        have hmem : r ∈ (rows.filter (inWindow startDate endDate)).filter
            (fun x => x.key = k') := by
          rw [hfil, hrsel]; exact selectLatest_mem hasCreated h t
        have := (List.mem_filter.mp hmem).2
        simpa using this
  · intro r hr
    obtain ⟨hin, hmax⟩ := pullTable_spec rows hasCreated startDate endDate r hr
    refine ⟨hin, ?_⟩
    intro x hx hxk
    have hle := hmax x hx hxk
    constructor
    · rcases hle with h | ⟨h, _⟩
      · simp only [orderKey] at h; omega
      · simp only [orderKey] at h
        omega
    · intro hct
      subst hct
      simpa [orderKey] using hle

/-- C4 (counterexample): a source row whose event timestamp equals the
window end is NOT excluded by the emitted query — SQL `BETWEEN` is
inclusive — so it contributes the result row for its key, contradicting
the claim that rows with event timestamp equal to `end` contribute
nothing. -/
theorem c4_window_counterexample :
    pullTable [({ key := 1, eventTs := 5, createdTs := 0 } : SourceRow Int)] true 0 5 =
      [{ key := 1, eventTs := 5, createdTs := 0 }] := by decide

/-- C4 (amended): the pull-latest query considers exactly the source rows
whose event timestamp t satisfies start <= t <= end (a closed window, via
SQL `BETWEEN`); rows outside that closed window contribute nothing to the
result set — they are excluded entirely rather than merely ranked lower. -/
theorem c4_window_closed {K : Type} [DecidableEq K]
    (rows : List (SourceRow K)) (hasCreated : Bool) (startDate endDate : Int) :
    (∀ r ∈ pullTable rows hasCreated startDate endDate,
      startDate ≤ r.eventTs ∧ r.eventTs ≤ endDate) ∧
    pullTable rows hasCreated startDate endDate =
      pullTable (rows.filter (inWindow startDate endDate)) hasCreated startDate
        endDate := by
  constructor
  · intro r hr
    have hin := (pullTable_spec rows hasCreated startDate endDate r hr).1
    have hw := (List.mem_filter.mp hin).2
    simp only [inWindow, Bool.and_eq_true, decide_eq_true_eq] at hw
    exact hw
  · have hff : (rows.filter (inWindow startDate endDate)).filter
        (inWindow startDate endDate) = rows.filter (inWindow startDate endDate) := by
      rw [List.filter_filter]
      congr 1
      funext a
      exact Bool.and_self _
    simp only [pullTable, hff]

/-- Closed instance discharging the hypotheses of `c4_window_closed`. -/
theorem c4_window_closed_witness :
    (0 : Int) ≤ ({ key := 1, eventTs := 5, createdTs := 0 } : SourceRow Int).eventTs ∧
    ({ key := 1, eventTs := 5, createdTs := 0 } : SourceRow Int).eventTs ≤ 5 :=
  (c4_window_closed [{ key := 1, eventTs := 5, createdTs := 0 }] true 0 5).1
    { key := 1, eventTs := 5, createdTs := 0 } (by decide)

/-- Closed instance discharging the hypotheses of `c2_pull_latest_dedup`. -/
theorem c2_pull_latest_dedup_witness :
    ((pullTable [({ key := 1, eventTs := 5, createdTs := 0 } : SourceRow Int),
        { key := 1, eventTs := 5, createdTs := 7 }] true 0 9).filter
      (fun r => r.key = 1)).length ≤ 1 :=
  (c2_pull_latest_dedup [{ key := 1, eventTs := 5, createdTs := 0 },
    { key := 1, eventTs := 5, createdTs := 7 }] true 0 9).1 1

/-! ## Retrieval-job claims -/

/-- C7 (counterexample): a standalone-cluster retrieval job whose
subprocess is still running when the wait times out comes out of
`get_output_file_uri` KILLED — launchers.py line 84 calls `p.kill()`
before raising — contradicting the claim that a timed-out wait never
kills the underlying job. -/
theorem c7_wait_timeout_counterexample :
    standaloneGetOutputFileUri ⟨['j'], ⟨false, 0, false⟩, ['u']⟩ =
      (.error .timeout, ⟨false, 0, true⟩) := rfl

/-- C7 (amended): when a blocking wait for the result exceeds its timeout
it raises an error; the Dataproc handle leaves the underlying operation
untouched, but the standalone-cluster handle kills its driver subprocess
before raising. -/
theorem c7_wait_timeout_behavior :
    (∀ job : DataprocJob, job.operation.resultWithinTimeout = false →
      (dataprocGetOutputFileUri job).1 = .error .wrapped ∧
      (dataprocGetOutputFileUri job).2 = job.operation) ∧
    (∀ job : StandaloneJob, job.process.exitsWithinTimeout = false →
      (standaloneGetOutputFileUri job).1 = .error .timeout ∧
      (standaloneGetOutputFileUri job).2.killed = true) := by
  constructor
  · intro job h
    constructor <;> simp [dataprocGetOutputFileUri, h]
  · intro job h
    constructor <;> simp [standaloneGetOutputFileUri, h]

/-- Closed instance discharging the hypotheses of
`c7_wait_timeout_behavior`. -/
theorem c7_wait_timeout_behavior_witness :
    (dataprocGetOutputFileUri ⟨⟨false, false⟩, ['u']⟩).2 =
      (⟨false, false⟩ : OperationState) ∧
    (standaloneGetOutputFileUri ⟨['j'], ⟨false, 0, false⟩, ['u']⟩).2.killed = true :=
  ⟨(c7_wait_timeout_behavior.1 ⟨⟨false, false⟩, ['u']⟩ rfl).2,
   (c7_wait_timeout_behavior.2 ⟨['j'], ⟨false, 0, false⟩, ['u']⟩ rfl).2⟩

/-- C8 (code bug, evaluated at the failing input): a standalone-cluster
retrieval job whose subprocess exits with return code 0 within the
timeout makes `get_output_file_uri` return Python `None` — the method
body (launchers.py lines 79-92) has no return statement on the success
path, contradicting the base-class docstring "Returns: str: file uri to
the result file" — while the Dataproc implementation does return the
stored output-file uri. -/
theorem c8_completed_output_uri :
    standaloneGetOutputFileUri ⟨['j'], ⟨true, 0, false⟩, ['u', 'r', 'i']⟩ =
      (.ok none, ⟨true, 0, false⟩) ∧
    dataprocGetOutputFileUri ⟨⟨true, false⟩, ['u', 'r', 'i']⟩ =
      (.ok (some ['u', 'r', 'i']), ⟨true, false⟩) := ⟨rfl, rfl⟩

/-! ## Legacy Feature setter claim -/

/-- C10 (confirmed): the legacy Feature resource's datastore setters are
cross-wired — assigning through the warehouse_store property leaves the
spec's warehouse datastore field unchanged and overwrites the serving
field instead, and assigning through the serving_store property
overwrites the warehouse field while leaving the serving field
unchanged. -/
theorem c10_datastore_setters_cross_wired :
    ∀ (D : Type) (spec : DataStoresState D) (v : D),
      (warehouseStoreSet spec v).warehouse = spec.warehouse ∧
      (warehouseStoreSet spec v).serving = v ∧
      (servingStoreSet spec v).warehouse = v ∧
      (servingStoreSet spec v).serving = spec.serving :=
  fun _ _ _ => ⟨rfl, rfl, rfl, rfl⟩

/-! ## Conflict-resolving writer claims -/

/-- Overwriting the entry of a key that is present updates that key's
lookup to the new record. -/
theorem lookupKey_map_overwrite [DecidableEq K] :
    ∀ (store : OnlineStore K V) (k : K) (rec : StoredRecord V),
      (∃ r, lookupKey store k = some r) →
      lookupKey (store.map (fun p => if p.1 = k then (p.1, rec) else p)) k =
        some rec := by
  intro store
  induction store with
  | nil => intro k rec ⟨r, hr⟩; cases hr
  | cons p rest ih =>
    obtain ⟨k', r'⟩ := p
    intro k rec hex
    by_cases hk : k' = k
    · subst hk
      rw [List.map_cons]
      have hhead : (if ((k', r') : K × StoredRecord V).1 = k' then
          (((k', r') : K × StoredRecord V).1, rec) else (k', r')) = (k', rec) := by
        simp
      rw [hhead]
      rw [lookupKey]
      rw [if_pos rfl]
    · have hex' : ∃ r, lookupKey rest k = some r := by
        rcases hex with ⟨r, hr⟩
        rw [lookupKey] at hr
        rw [if_neg hk] at hr
        exact ⟨r, hr⟩
      rw [List.map_cons]
      have hhead : (if ((k', r') : K × StoredRecord V).1 = k then
          (((k', r') : K × StoredRecord V).1, rec) else (k', r')) = (k', r') := by
        simp [hk]
      rw [hhead]
      rw [lookupKey]
      rw [if_neg hk]
      exact ih k rec hex'

/-- C1 (confirmed; writer modelled from spec §4.4, its implementation
being outside the provided sources): for a stored record and an incoming
row with the same entity key, the write overwrites exactly when the
incoming event timestamp is strictly greater, or the event timestamps are
equal and the incoming creation timestamp is strictly greater; in every
other case the store is left unchanged with no error.  The second
conjunct replays the five-step scenario of spec §8 (the
`basic_rw_test` scenario of tests/cli/online_read_write_test.py) and
obtains exactly the listed read-back values. -/
theorem c1_conflict_resolution :
    (∀ (K V : Type) [DecidableEq K], ∀ (store : OnlineStore K V)
        (k : K) (v : V) (e c : Int) (stored : StoredRecord V),
      lookupKey store k = some stored →
        ((e > stored.eventTs ∨ (e = stored.eventTs ∧ c > stored.createdTs)) →
          lookupKey (writeRow store (k, v, e, c)) k = some ⟨e, c, v⟩) ∧
        (¬(e > stored.eventTs ∨ (e = stored.eventTs ∧ c > stored.createdTs)) →
          writeRow store (k, v, e, c) = store)) ∧
    (let store1 := onlineWriteBatch ([] : OnlineStore Nat (List (String × String)))
        [(1, [("lat", "1.1"), ("lon", "3.1")], 100, 100)]
     let store2 := onlineWriteBatch store1
        [(1, [("lat", "-1000"), ("lon", "OLD")], 40, 101)]
     let store3 := onlineWriteBatch store2
        [(1, [("lat", "1123"), ("lon", "NEWER")], 160, 102)]
     let store4 := onlineWriteBatch store3
        [(1, [("lat", "54321"), ("lon", "OLDER_CREATED")], 160, 42)]
     let store5 := onlineWriteBatch store4
        [(1, [("lat", "96864"), ("lon", "NEWER_CREATED")], 160, 162)]
     onlineRead store1 1 = some [("lat", "1.1"), ("lon", "3.1")] ∧
     onlineRead store2 1 = some [("lat", "1.1"), ("lon", "3.1")] ∧
     onlineRead store3 1 = some [("lat", "1123"), ("lon", "NEWER")] ∧
     onlineRead store4 1 = some [("lat", "1123"), ("lon", "NEWER")] ∧
     onlineRead store5 1 = some [("lat", "96864"), ("lon", "NEWER_CREATED")]) := by
  constructor
  · intro K V _ store k v e c stored hlook
    constructor
    · intro hcond
      simp only [writeRow, hlook]
      rw [if_pos hcond]
      exact lookupKey_map_overwrite store k ⟨e, c, v⟩ ⟨stored, hlook⟩
    · intro hcond
      simp only [writeRow, hlook]
      rw [if_neg hcond]
  · decide

/-- Closed instance discharging the hypotheses of
`c1_conflict_resolution`. -/
theorem c1_conflict_resolution_witness :
    lookupKey (writeRow [((1 : Nat), (⟨5, 5, "x"⟩ : StoredRecord String))]
      (1, "y", 6, 0)) 1 = some ⟨6, 0, "y"⟩ :=
  ((c1_conflict_resolution.1 Nat String [(1, ⟨5, 5, "x"⟩)] 1 "y" 6 0
      ⟨5, 5, "x"⟩ (by decide)).1 (by decide))

/-! ## Materialization batching claims -/

/-- Every batch produced by `toBatches` holds at most `n` rows. -/
theorem toBatches_length_le {α} (n : Nat) (hn : 0 < n) :
    ∀ (l : List α), ∀ b ∈ toBatches n l, b.length ≤ n := by
  have H : ∀ (m : Nat) (l : List α), l.length ≤ m →
      ∀ b ∈ toBatches n l, b.length ≤ n := by
    intro m
    induction m with
    | zero =>
      intro l hl b hb
      rw [List.length_eq_zero.mp (Nat.le_zero.mp hl)] at hb
      rw [toBatches] at hb
      cases hb
    | succ m ih =>
      intro l hl b hb
      cases l with
      | nil => rw [toBatches] at hb; cases hb
      | cons x xs =>
        rw [toBatches] at hb
        rcases List.mem_cons.mp hb with rfl | hb
        · have := List.length_take_le (n - 1) xs
          simp only [List.length_cons]
          omega
        · apply ih (xs.drop (n - 1)) _ b hb
          have := List.length_drop (n - 1) xs
          simp only [List.length_cons] at hl
          omega
  exact fun l => H l.length l (le_refl _)

/-- Concatenating the batches gives back exactly the input rows. -/
theorem toBatches_flatten {α} (n : Nat) :
    ∀ (l : List α), (toBatches n l).flatten = l := by
  have H : ∀ (m : Nat) (l : List α), l.length ≤ m →
      (toBatches n l).flatten = l := by
    intro m
    induction m with
    | zero =>
      intro l hl
      rw [List.length_eq_zero.mp (Nat.le_zero.mp hl)]
      rw [toBatches]
      rfl
    | succ m ih =>
      intro l hl
      cases l with
      | nil => rw [toBatches]; rfl
      | cons x xs =>
        rw [toBatches]
        rw [List.flatten_cons]
        rw [ih (xs.drop (n - 1)) (by
          have := List.length_drop (n - 1) xs
          simp only [List.length_cons] at hl
          omega)]
        simp [List.take_append_drop]
  exact fun l => H l.length l (le_refl _)

/-- C9 (confirmed; the minibatching and thread pool live in the
online-store implementation outside the provided sources and are
modelled from the spec): the pulled rows are partitioned into batches of
at most `write_batch_size` rows — no single writer call receives more —
their concatenation is exactly the pulled rows, and the bounded worker
pool submits at most `write_concurrency` batches concurrently (waves of
at most `write_concurrency` batches). -/
theorem c9_materialization_batching {R : Type} (rows : List R) (bs wc : Nat)
    (hbs : 0 < bs) (hwc : 0 < wc) :
    (∀ b ∈ toBatches bs rows, b.length ≤ bs) ∧
    (toBatches bs rows).flatten = rows ∧
    (∀ w ∈ toWaves wc (toBatches bs rows), w.length ≤ wc) :=
  ⟨toBatches_length_le bs hbs rows, toBatches_flatten bs rows,
   toBatches_length_le wc hwc (toBatches bs rows)⟩

/-- Closed instance discharging the hypotheses of
`c9_materialization_batching`. -/
theorem c9_materialization_batching_witness :
    (toBatches 2 [1, 2, 3]).flatten = [1, 2, 3] :=
  (c9_materialization_batching [1, 2, 3] 2 1 (by decide) (by decide)).2.1

/-! ## Python split and int lemmas -/

theorem pySplit_ne_nil (sep : Char) : ∀ s, pySplit sep s ≠ [] := by
  intro s
  induction s with
  | nil => simp [pySplit]
  | cons c rest ih =>
    by_cases hc : c = sep
    · simp [pySplit, hc]
    · rcases hr : pySplit sep rest with _ | ⟨h, t⟩ <;> simp [pySplit, hc, hr]

theorem pySplit_length (sep : Char) :
    ∀ s, (pySplit sep s).length = s.count sep + 1 := by
  intro s
  induction s with
  | nil => simp [pySplit]
  | cons c rest ih =>
    by_cases hc : c = sep
    · simp [pySplit, hc, List.count_cons, ih]
    · rcases hr : pySplit sep rest with _ | ⟨h, t⟩
      · exact absurd hr (pySplit_ne_nil sep rest)
      · rw [hr] at ih
        simp [pySplit, hc, hr, List.count_cons, ← ih]

theorem pySplit_not_mem (sep : Char) : ∀ s, sep ∉ s → pySplit sep s = [s] := by
  intro s
  induction s with
  | nil => intro _; rfl
  | cons c rest ih =>
    intro hmem
    have hc : ¬c = sep := fun h => hmem (h ▸ List.mem_cons_self c rest)
    have hrest : sep ∉ rest := fun h => hmem (List.mem_cons_of_mem c h)
    simp [pySplit, hc, ih hrest]

theorem pySplit_append (sep : Char) :
    ∀ a b, sep ∉ a → pySplit sep (a ++ sep :: b) = a :: pySplit sep b := by
  intro a
  induction a with
  | nil => intro b _; simp [pySplit]
  | cons c a' ih =>
    intro b hmem
    have hc : ¬c = sep := fun h => hmem (h ▸ List.mem_cons_self c a')
    have ha' : sep ∉ a' := fun h => hmem (List.mem_cons_of_mem c h)
    rcases hr : pySplit sep (a' ++ sep :: b) with _ | ⟨h, t⟩
    · exact absurd hr (pySplit_ne_nil sep _)
    · have hthis := ih b ha'
      rw [hr] at hthis
      rw [List.cons.injEq] at hthis
      simp only [List.cons_append, pySplit, if_neg hc, List.append_eq]
      rw [hr]
      simp [hthis.1, hthis.2]

theorem digitChar_isDigit (d : Nat) : (digitChar d).isDigit = true := by
  unfold digitChar
  split <;> decide

theorem digitChar_toNat (d : Nat) (h : d < 10) : (digitChar d).toNat - 48 = d := by
  interval_cases d <;> decide

theorem isDigit_not_marker (c : Char) (h : c.isDigit = true) :
    c ≠ '-' ∧ c ≠ '+' ∧ c ≠ '/' ∧ c ≠ ':' := by
  refine ⟨?_, ?_, ?_, ?_⟩ <;> rintro rfl <;> exact absurd h (by decide)

theorem natToDigits_digit : ∀ n, ∀ c ∈ natToDigits n, c.isDigit = true := by
  intro n
  induction n using Nat.strong_induction_on with
  | _ n ih =>
    rw [natToDigits]
    split
    · intro c hc
      rcases List.mem_singleton.mp hc with rfl
      exact digitChar_isDigit _
    · intro c hc
      rcases List.mem_append.mp hc with hc | hc
      · exact ih (n / 10) (Nat.div_lt_self (by omega) (by omega)) c hc
      · rcases List.mem_singleton.mp hc with rfl
        exact digitChar_isDigit _

theorem natToDigits_ne_nil (n : Nat) : natToDigits n ≠ [] := by
  rw [natToDigits]
  split
  · simp
  · simp

theorem digitsToNat_append_digit (a : List Char) (c : Char) (m : Nat)
    (ha : digitsToNat a = some m) (hc : c.isDigit = true) :
    digitsToNat (a ++ [c]) = some (m * 10 + (c.toNat - 48)) := by
  have hne : ¬(a = []) := by
    intro h
    rw [h] at ha
    simp [digitsToNat] at ha
  have hall : (a.all fun x => x.isDigit) = true := by
    by_contra h
    unfold digitsToNat at ha
    rw [if_neg hne, if_neg h] at ha
    cases ha
  have hfold : a.foldl (fun acc x => acc * 10 + (x.toNat - 48)) 0 = m := by
    unfold digitsToNat at ha
    rw [if_neg hne, if_pos hall] at ha
    exact (Option.some.injEq _ _).mp ha
  unfold digitsToNat
  rw [if_neg (by simp)]
  rw [if_pos (by
    rw [List.all_append]
    simp only [Bool.and_eq_true]
    exact ⟨hall, by simp [hc]⟩)]
  rw [List.foldl_append]
  rw [hfold]
  rfl

theorem digitsToNat_natToDigits : ∀ n, digitsToNat (natToDigits n) = some n := by
  intro n
  induction n using Nat.strong_induction_on with
  | _ n ih =>
    rw [natToDigits]
    split
    · rename_i h
      unfold digitsToNat
      rw [if_neg (by simp)]
      rw [if_pos (by simp [digitChar_isDigit])]
      simp [digitChar_toNat n h]
    · rename_i h
      have hih := ih (n / 10) (Nat.div_lt_self (by omega) (by omega))
      rw [digitsToNat_append_digit _ _ _ hih (digitChar_isDigit _)]
      rw [digitChar_toNat (n % 10) (Nat.mod_lt _ (by omega))]
      rw [Option.some.injEq]
      omega

theorem pyInt_natToDigits (n : Nat) : pyInt (natToDigits n) = some (n : Int) := by
  rcases hd : natToDigits n with _ | ⟨c, rest⟩
  · exact absurd hd (natToDigits_ne_nil n)
  · have hcd : c.isDigit = true :=
      natToDigits_digit n c (hd ▸ List.mem_cons_self c rest)
    obtain ⟨h1, h2, _, _⟩ := isDigit_not_marker c hcd
    rw [pyInt]
    rw [if_neg h1, if_neg h2]
    rw [← hd, digitsToNat_natToDigits n]
    rfl

theorem natToDigits_no_marker (v : Nat) :
    '/' ∉ natToDigits v ∧ ':' ∉ natToDigits v := by
  constructor <;> intro hmem <;>
    have hd := natToDigits_digit v _ hmem
  · exact (isDigit_not_marker _ hd).2.2.1 rfl
  · exact (isDigit_not_marker _ hd).2.2.2 rfl

/-- C6 (confirmed): parsing `ns/name:v` yields `(ns, name, v)`; parsing a
bare `name` with a default namespace `ns` yields `(ns, name, 0)`; when the
`:version` part is absent the version is 0; and parsing a batch of
reference strings yields one result per input, in input order. -/
theorem c6_reference_parse_success :
    (∀ (ns name : List Char) (v : Nat), ns ≠ [] → name ≠ [] →
      '/' ∉ ns → '/' ∉ name → ':' ∉ name →
      buildFeatureReference (ns ++ '/' :: (name ++ ':' :: natToDigits v)) none =
        .ok ⟨ns, name, (v : Int)⟩) ∧
    (∀ (ns name : List Char), ns ≠ [] → name ≠ [] → '/' ∉ name → ':' ∉ name →
      buildFeatureReference name (some ns) = .ok ⟨ns, name, 0⟩) ∧
    (∀ (ns name : List Char) (d : Option (List Char)), ns ≠ [] → name ≠ [] →
      '/' ∉ ns → '/' ∉ name → ':' ∉ name →
      buildFeatureReference (ns ++ '/' :: name) d = .ok ⟨ns, name, 0⟩) ∧
    (∀ (refs : List (List Char)) (d : Option (List Char)),
      (∀ r ∈ refs, ∃ fr, buildFeatureReference r d = .ok fr) →
      ∃ out, buildFeatureReferences refs d = .ok out ∧
        out.length = refs.length ∧
        List.Forall₂ (fun r fr => buildFeatureReference r d = .ok fr) refs out) := by
  have hcheck : ∀ (ns name : List Char) (v : Nat), ns ≠ [] → name ≠ [] →
      ¬(ns.length = 0 ∨ name.length = 0 ∨ (v : Int) < 0) := by
    rintro ns name v hns hname (h | h | h)
    · exact hns (List.length_eq_zero.mp h)
    · exact hname (List.length_eq_zero.mp h)
    · omega
  refine ⟨?_, ?_, ?_, ?_⟩
  · intro ns name v hns hname hnsl hnml hnmc
    have hfvl : '/' ∉ name ++ ':' :: natToDigits v := by
      intro hmem
      rcases List.mem_append.mp hmem with h | h
      · exact hnml h
      · rcases List.mem_cons.mp h with h | h
        · exact absurd h (by decide)
        · exact (natToDigits_no_marker v).1 h
    have h1 : pySplit '/' (ns ++ '/' :: (name ++ ':' :: natToDigits v)) =
        [ns, name ++ ':' :: natToDigits v] := by
      rw [pySplit_append '/' ns _ hnsl, pySplit_not_mem '/' _ hfvl]
    have h2 : pySplit ':' (name ++ ':' :: natToDigits v) = [name, natToDigits v] := by
      rw [pySplit_append ':' name _ hnmc,
        pySplit_not_mem ':' _ (natToDigits_no_marker v).2]
    simp only [buildFeatureReference, h1, parseFeatureVersion, h2,
      pyInt_natToDigits, finalCheck]
    rw [if_neg (hcheck ns name v hns hname)]
  · intro ns name hns hname hnml hnmc
    have h1 : pySplit '/' name = [name] := pySplit_not_mem '/' _ hnml
    have h2 : pySplit ':' name = [name] := pySplit_not_mem ':' _ hnmc
    simp only [buildFeatureReference, h1, parseFeatureVersion, h2, finalCheck]
    rw [if_neg (by
      rintro (h | h | h)
      · exact hns (List.length_eq_zero.mp h)
      · exact hname (List.length_eq_zero.mp h)
      · exact absurd h (by decide))]
  · intro ns name d hns hname hnsl hnml hnmc
    have h1 : pySplit '/' (ns ++ '/' :: name) = [ns, name] := by
      rw [pySplit_append '/' ns _ hnsl, pySplit_not_mem '/' _ hnml]
    have h2 : pySplit ':' name = [name] := pySplit_not_mem ':' _ hnmc
    simp only [buildFeatureReference, h1, parseFeatureVersion, h2, finalCheck]
    rw [if_neg (by
      rintro (h | h | h)
      · exact hns (List.length_eq_zero.mp h)
      · exact hname (List.length_eq_zero.mp h)
      · exact absurd h (by decide))]
  · intro refs
    induction refs with
    | nil =>
      intro d _
      exact ⟨[], rfl, rfl, List.Forall₂.nil⟩
    | cons r rs ih =>
      intro d hall
      obtain ⟨fr, hfr⟩ := hall r (List.mem_cons_self r rs)
      obtain ⟨out, hout, hlen, hfa⟩ :=
        ih d (fun x hx => hall x (List.mem_cons_of_mem r hx))
      refine ⟨fr :: out, ?_, by simp [hlen], List.Forall₂.cons hfr hfa⟩
      simp only [buildFeatureReferences] at hout ⊢
      rw [List.mapM_cons, hfr, hout]
      rfl

/-- Closed instance discharging the hypotheses of
`c6_reference_parse_success`. -/
theorem c6_reference_parse_success_witness :
    buildFeatureReference ("proj".toList ++ '/' :: ("feat".toList ++ ':' ::
        natToDigits 3)) none =
      .ok ⟨"proj".toList, "feat".toList, (3 : Int)⟩ :=
  c6_reference_parse_success.1 "proj".toList "feat".toList 3
    (by decide) (by decide) (by decide) (by decide) (by decide)

/-- The name/version parser never reports a missing namespace. -/
theorem parseFeatureVersion_ne_missing (p fv : List Char) :
    parseFeatureVersion p fv ≠ .error .missingNamespace := by
  unfold parseFeatureVersion finalCheck
  rcases h : pySplit ':' fv with _ | ⟨n, _ | ⟨vs, rest⟩⟩
  · simp [h]
  · simp only [h]
    split <;> simp
  · rcases rest with _ | ⟨w, rest'⟩
    · simp only [h]
      rcases hv : pyInt vs with _ | k
      · simp [hv]
      · simp only [hv]
        split <;> simp
    · simp [h]

/-- Classification of the malformed outcome of the name/version parser:
it fails malformed exactly on more than one `:`, an empty project, an
empty name, or a negative or non-numeric version. -/
theorem parseFeatureVersion_malformed_iff (p fv : List Char) :
    parseFeatureVersion p fv = .error .malformed ↔
      (1 < fv.count ':' ∨ p = [] ∨ nameComponent fv = [] ∨ badVersion fv) := by
  have hlen := pySplit_length ':' fv
  unfold parseFeatureVersion nameComponent badVersion
  rcases h : pySplit ':' fv with _ | ⟨n, _ | ⟨vs, _ | ⟨w, rest⟩⟩⟩
  · exact absurd h (pySplit_ne_nil ':' fv)
  · rw [h] at hlen
    have hcount : fv.count ':' = 0 := by
      simp only [List.length_singleton] at hlen
      omega
    simp only [h, hcount]
    unfold finalCheck
    constructor
    · intro hfc
      split_ifs at hfc with hcond
      · rcases hcond with hc | hc | hc
        · right; left; exact List.length_eq_zero.mp hc
        · right; right; left; exact List.length_eq_zero.mp hc
        · exact absurd hc (by decide)
    · intro hcond
      rcases hcond with hc | hc | hc | hc
      · exact absurd hc (by decide)
      · rw [if_pos (Or.inl (by simp [hc]))]
      · rw [if_pos (Or.inr (Or.inl (by simp [hc])))]
      · exact hc.elim
  · rw [h] at hlen
    have hcount : fv.count ':' = 1 := by
      simp only [List.length_cons, List.length_nil] at hlen
      omega
    simp only [h, hcount]
    rcases hv : pyInt vs with _ | k
    · simp only [hv]
      constructor
      · intro _
        right; right; right; trivial
      · intro _
        trivial
    · simp only [hv]
      unfold finalCheck
      constructor
      · intro hfc
        split_ifs at hfc with hcond
        · rcases hcond with hc | hc | hc
          · right; left; exact List.length_eq_zero.mp hc
          · right; right; left; exact List.length_eq_zero.mp hc
          · right; right; right; exact hc
      · intro hcond
        rcases hcond with hc | hc | hc | hc
        · exact absurd hc (by decide)
        · rw [if_pos (Or.inl (by simp [hc]))]
        · rw [if_pos (Or.inr (Or.inl (by simp [hc])))]
        · rw [if_pos (Or.inr (Or.inr hc))]
  · rw [h] at hlen
    have hcount : 1 < fv.count ':' := by
      simp only [List.length_cons] at hlen
      omega
    simp only [h]
    constructor
    · intro _
      exact Or.inl hcount
    · intro _
      trivial

/-- C5 (counterexample): the claim's malformedness clause fails on the
code in two ways — `a:b/c:1` has more than one `:` yet parses
successfully (the code only bounds the `:` occurrences of the part after
the `/`), and `x:1:2` with no default namespace has more than one `:` yet
fails with the missing-namespace error, not the malformed one (the
missing-namespace check runs first). -/
theorem c5_parse_failure_counterexample :
    (1 < ("a:b/c:1".toList.count ':') ∧
      buildFeatureReference "a:b/c:1".toList none =
        .ok ⟨"a:b".toList, "c".toList, 1⟩) ∧
    (1 < ("x:1:2".toList.count ':') ∧
      buildFeatureReference "x:1:2".toList none = .error .missingNamespace) :=
  ⟨⟨by decide, rfl⟩, ⟨by decide, rfl⟩⟩

/-- C5 (amended): parsing fails with the missing-namespace error exactly
when the string contains no `/` and no default namespace is supplied
(this check precedes all malformedness checks), and fails with the
malformed error exactly when the string has more than one `/`, or — the
namespace and feature-path components being determined — the feature-path
component has more than one `:`, the namespace component is empty, the
name component is empty, or the version is negative or non-numeric; in
every failure case no reference is produced. -/
theorem c5_parse_failure_classification (s : List Char) (d : Option (List Char)) :
    (buildFeatureReference s d = .error .missingNamespace ↔
      s.count '/' = 0 ∧ d = none) ∧
    (buildFeatureReference s d = .error .malformed ↔ malformedCond s d) := by
  have hlen := pySplit_length '/' s
  unfold buildFeatureReference malformedCond refComponents
  rcases h : pySplit '/' s with _ | ⟨a, _ | ⟨b, _ | ⟨c, rest⟩⟩⟩
  · exact absurd h (pySplit_ne_nil '/' s)
  · rw [h] at hlen
    have hcount : s.count '/' = 0 := by
      simp only [List.length_singleton] at hlen
      omega
    rcases d with _ | p
    · simp [h, hcount]
    · simp only [h, hcount]
      constructor
      · simp [parseFeatureVersion_ne_missing p a]
      · rw [parseFeatureVersion_malformed_iff p a]
        constructor
        · intro hc
          right
          exact ⟨p, a, rfl, hc⟩
        · rintro (hlt | ⟨ns, fp, heq, hc⟩)
          · exact absurd hlt (by omega)
          · obtain ⟨rfl, rfl⟩ : p = ns ∧ a = fp := by
              have h3 : some (p, a) = some (ns, fp) := heq
              simpa using h3
            exact hc
  · rw [h] at hlen
    have hcount : s.count '/' = 1 := by
      simp only [List.length_cons, List.length_nil] at hlen
      omega
    simp only [h, hcount]
    constructor
    · simp [parseFeatureVersion_ne_missing a b]
    · rw [parseFeatureVersion_malformed_iff a b]
      constructor
      · intro hc
        right
        exact ⟨a, b, rfl, hc⟩
      · rintro (hlt | ⟨ns, fp, heq, hc⟩)
        · exact absurd hlt (by omega)
        · simp only [Option.some.injEq, Prod.mk.injEq] at heq
          obtain ⟨rfl, rfl⟩ := heq
          exact hc
  · rw [h] at hlen
    have hcount : 1 < s.count '/' := by
      simp only [List.length_cons] at hlen
      omega
    simp only [h]
    constructor
    · constructor
      · intro hfc
        cases hfc
      · rintro ⟨hc, _⟩
        omega
    · constructor
      · intro _
        exact Or.inl hcount
      · intro _
        trivial

/-- Closed instance discharging the hypotheses of
`c5_parse_failure_classification`. -/
theorem c5_parse_failure_classification_witness :
    buildFeatureReference "feat".toList none = .error .missingNamespace :=
  (c5_parse_failure_classification "feat".toList none).1.mpr ⟨by decide, rfl⟩

/-! ## Entity-key codec round-trip lemmas -/

theorem decodeNat_encodeNat : ∀ (n : Nat) (rest : List Nat),
    decodeNat (encodeNat n ++ rest) = some (n, rest) := by
  intro n
  induction n using Nat.strong_induction_on with
  | _ n ih =>
    intro rest
    rw [encodeNat]
    split
    · rename_i h
      simp [decodeNat, h]
    · rename_i h
      simp only [List.cons_append]
      rw [decodeNat]
      rw [if_neg (by omega)]
      rw [ih (n / 128) (Nat.div_lt_self (by omega) (by omega)) rest]
      simp
      omega

theorem takeLE_natToLE : ∀ (w n : Nat) (rest : List Nat), n < 256 ^ w →
    takeLE w (natToLE w n ++ rest) = some (n, rest) := by
  intro w
  induction w with
  | zero =>
    intro n rest hn
    have hz : n = 0 := by
      simp only [pow_zero] at hn
      omega
    subst hz
    rfl
  | succ w ih =>
    intro n rest hn
    rw [natToLE]
    simp only [List.cons_append]
    rw [takeLE]
    rw [ih (n / 256) rest (by
      rw [pow_succ] at hn
      omega)]
    have hx : n % 256 + 256 * (n / 256) = n := by omega
    simp [hx]

theorem decodeF32_encode (v : Fin (2 ^ 32)) (rest : List Nat) :
    decodeF32 (natToLE 4 v.val ++ rest) = some (v, rest) := by
  have hv : v.val < 256 ^ 4 := by
    have := v.isLt
    norm_num at this ⊢
    exact this
  unfold decodeF32
  rw [takeLE_natToLE 4 v.val rest hv]
  simp [Prod.ext_iff, Fin.ext_iff, Nat.mod_eq_of_lt v.isLt]

theorem decodeF64_encode (v : Fin (2 ^ 64)) (rest : List Nat) :
    decodeF64 (natToLE 8 v.val ++ rest) = some (v, rest) := by
  have hv : v.val < 256 ^ 8 := by
    have := v.isLt
    norm_num at this ⊢
    exact this
  unfold decodeF64
  rw [takeLE_natToLE 8 v.val rest hv]
  simp [Prod.ext_iff, Fin.ext_iff, Nat.mod_eq_of_lt v.isLt]

theorem decodeBytes_encodeBytes (cs rest : List Nat) :
    decodeBytes (encodeBytes cs ++ rest) = some (cs, rest) := by
  unfold encodeBytes decodeBytes
  rw [List.append_assoc]
  rw [decodeNat_encodeNat cs.length (cs ++ rest)]
  simp only []
  rw [if_pos (by
    rw [List.length_append]
    omega)]
  rw [List.take_left, List.drop_left]

theorem decodeBool_encode (b : Bool) (rest : List Nat) :
    decodeBool ([if b then 1 else 0] ++ rest) = some (b, rest) := by
  cases b <;> rfl

theorem decodeCount_encode {α : Type} (dec : List Nat → Option (α × List Nat))
    (enc : α → List Nat)
    (hdec : ∀ (a : α) (r : List Nat), dec (enc a ++ r) = some (a, r)) :
    ∀ (as : List α) (rest : List Nat),
      decodeCount dec as.length ((as.map enc).flatten ++ rest) = some (as, rest) := by
  intro as
  induction as with
  | nil =>
    intro rest
    simp [decodeCount]
  | cons a as ih =>
    intro rest
    simp only [List.map_cons, List.flatten_cons, List.length_cons, List.append_assoc]
    rw [decodeCount]
    rw [hdec a ((as.map enc).flatten ++ rest)]
    simp [ih rest]

theorem decodeValue_encodeValue : ∀ (v : TypedValue) (rest : List Nat),
    decodeValue (encodeValue v ++ rest) = some (v, rest) := by
  have h32 := decodeF32_encode
  have h64 := decodeF64_encode
  have hby := decodeBytes_encodeBytes
  have hbo := decodeBool_encode
  intro v rest
  cases v with
  | i32 x => simp [encodeValue, decodeValue, h32]
  | i64 x => simp [encodeValue, decodeValue, h64]
  | f32 x => simp [encodeValue, decodeValue, h32]
  | f64 x => simp [encodeValue, decodeValue, h64]
  | str cs => simp [encodeValue, decodeValue, hby]
  | bytes bs => simp [encodeValue, decodeValue, hby]
  | boolean b => cases b <;> simp [encodeValue, decodeValue, decodeBool]
  | i32List vs =>
    simp only [encodeValue, decodeValue, List.cons_append, List.append_assoc,
      decodeNat_encodeNat]
    norm_num
    exact decodeCount_encode decodeF32 (fun v => natToLE 4 v.val) h32 vs rest
  | i64List vs =>
    simp only [encodeValue, decodeValue, List.cons_append, List.append_assoc,
      decodeNat_encodeNat]
    norm_num
    exact decodeCount_encode decodeF64 (fun v => natToLE 8 v.val) h64 vs rest
  | f32List vs =>
    simp only [encodeValue, decodeValue, List.cons_append, List.append_assoc,
      decodeNat_encodeNat]
    norm_num
    exact decodeCount_encode decodeF32 (fun v => natToLE 4 v.val) h32 vs rest
  | f64List vs =>
    simp only [encodeValue, decodeValue, List.cons_append, List.append_assoc,
      decodeNat_encodeNat]
    norm_num
    exact decodeCount_encode decodeF64 (fun v => natToLE 8 v.val) h64 vs rest
  | strList vs =>
    simp only [encodeValue, decodeValue, List.cons_append, List.append_assoc,
      decodeNat_encodeNat]
    norm_num
    exact decodeCount_encode decodeBytes encodeBytes hby vs rest
  | bytesList vs =>
    simp only [encodeValue, decodeValue, List.cons_append, List.append_assoc,
      decodeNat_encodeNat]
    norm_num
    exact decodeCount_encode decodeBytes encodeBytes hby vs rest
  | booleanList vs =>
    simp only [encodeValue, decodeValue, List.cons_append, List.append_assoc,
      decodeNat_encodeNat]
    norm_num
    exact decodeCount_encode decodeBool (fun b => [if b then 1 else 0]) hbo vs rest

/-- C3 (confirmed; codec modelled from spec §4.1, `serialize_entity_key`
being outside the provided sources): for every ordered sequence of
join-key names and every equal-length ordered sequence of supported typed
values — all supported scalar tags and the list variant of each —
decoding the encoding returns exactly the names and values. -/
theorem c3_entity_key_roundtrip (names : List (List Nat)) (values : List TypedValue)
    (hlen : names.length = values.length) :
    decodeEntityKey (encodeEntityKey names values) = some (names, values) := by
  have hnames := decodeCount_encode decodeBytes encodeBytes decodeBytes_encodeBytes
    names ((values.map encodeValue).flatten)
  have hvals := decodeCount_encode decodeValue encodeValue decodeValue_encodeValue
    values []
  rw [List.append_nil] at hvals
  unfold encodeEntityKey decodeEntityKey
  rw [List.append_assoc]
  rw [decodeNat_encodeNat names.length
    ((names.map encodeBytes).flatten ++ (values.map encodeValue).flatten)]
  rw [hlen] at hnames ⊢
  simp [hnames, hvals]

/-- Closed instance discharging the hypotheses of
`c3_entity_key_roundtrip`. -/
theorem c3_entity_key_roundtrip_witness :
    decodeEntityKey (encodeEntityKey [[100, 101], [1]]
        [.i32 7, .strList [[65, 66], []]]) =
      some ([[100, 101], [1]], [.i32 7, .strList [[65, 66], []]]) :=
  c3_entity_key_roundtrip [[100, 101], [1]] [.i32 7, .strList [[65, 66], []]] rfl

end Feast
